import Mathlib

/-!
Verification of the agent-orchestration kernel of the Jarvis repository.

The definitions below are shallow embeddings of the Rust source:
- `execute_tool_calls`, `trim_history`, `run_tool_loop` from `src/agent/loop_.rs`;
- `normalize_expression` from `src/cron/mod.rs`;
- `OpenAiCompatibleProvider.new` / `chat_completions_url` from `src/providers/compatible.rs`;
- the restart back-off loop of `spawn_component_supervisor` from `src/daemon/mod.rs`.

External collaborators that the kernel only calls through interfaces (the LLM
provider, the JSON parser `serde_json::from_str`, the security policy's
`record_action`, the tools' `execute`) are modelled as function parameters, so
every theorem quantifies over their behaviour.  Asynchrony is modelled by
explicit state threading; logging/observer side effects are elided.
-/

namespace Jarvis

/-- Function name plus JSON-encoded argument string of a tool call
(`FunctionCall` in `src/providers/traits.rs`). -/
structure FunctionCall where
  name : String
  arguments : String
deriving Repr, DecidableEq

/-- A tool call requested by the model (`ToolCall` in `src/providers/traits.rs`). -/
structure ToolCall where
  id : String
  function : FunctionCall
deriving Repr, DecidableEq

/-- A message in a multi-turn conversation (`ChatMessage` in `src/providers/traits.rs`). -/
inductive ChatMessage where
  | system (content : String)
  | user (content : String)
  | assistant (content : Option String) (tool_calls : Option (List ToolCall))
  | tool (tool_call_id : String) (content : String)
deriving Repr, DecidableEq

/-- Function metadata of a tool definition (`FunctionDef` in `src/providers/traits.rs`).
The JSON-schema `parameters` field is opaque to the tool loop (it is only
forwarded to the provider) and is elided. -/
structure FunctionDef where
  name : String
  description : String
deriving Repr, DecidableEq

/-- A tool definition sent to the API (`ToolDefinition` in `src/providers/traits.rs`). -/
structure ToolDefinition where
  kind : String
  function : FunctionDef
deriving Repr, DecidableEq

/-- Response from a provider that supports tool calling
(`ChatResponse` in `src/providers/traits.rs`). -/
inductive ChatResponse where
  | text (t : String)
  | toolUse (tool_calls : List ToolCall) (text : Option String)
deriving Repr, DecidableEq

/-- Result of one tool execution (`ToolResult` in `src/tools`). -/
structure ToolResult where
  success : Bool
  output : String
  error : Option String
deriving Repr, DecidableEq

/-- Outcome of `tool.execute(args)`: `Ok(result)` or a thrown error
(`anyhow::Result<ToolResult>`). -/
inductive ExecOutcome where
  | ok (r : ToolResult)
  | err (e : String)
deriving Repr, DecidableEq

/-- A registry entry: a tool has a name and an executor over parsed JSON
arguments.  The parsed-JSON type `J` is abstract (`serde_json::Value`), since
the harness never inspects it. -/
structure Tool (J : Type) where
  name : String
  execute : J → ExecOutcome

/-- Content string produced for one tool call by the body of the
`for tc in tool_calls` loop of `execute_tool_calls`
(`src/agent/loop_.rs` lines 47-128), together with the security-policy state
after the call.  Each `continue` arm of the loop corresponds to one branch:
unknown tool, rate-limited, argument-parse failure, and execution. -/
def toolCallStep {σ J : Type} (tools : List (Tool J))
    (parse : String → Except String J) (recordAction : σ → Bool × σ)
    (tc : ToolCall) (sec : σ) : String × σ :=
  match tools.find? (fun t => t.name == tc.function.name) with
  | none => ("Error: 未知工具「" ++ tc.function.name ++ "」", sec)
  | some tool =>
    let ra := recordAction sec
    if !ra.1 then
      ("错误: 超出速率限制，请稍后再进行工具调用。", ra.2)
    else
      match parse tc.function.arguments with
      | .error e => ("错误: 参数解析失败: " ++ e, ra.2)
      | .ok args =>
        let content :=
          match tool.execute args with
          | .ok r => if r.success then r.output else "Error: " ++ (r.error.getD r.output)
          | .err e => "Error: " ++ e
        (content, ra.2)

/-- Execute a list of tool calls against the tool registry, returning a
`ChatMessage.tool` for each call (success or error) plus the final
security-policy state (`execute_tool_calls` in `src/agent/loop_.rs`).
The Rust function returns a plain `Vec<ChatMessage>` (not a `Result`), which
this total function mirrors.  `parse` stands for `serde_json::from_str`,
`recordAction` for `SecurityPolicy::record_action`. -/
def execute_tool_calls {σ J : Type} (tools : List (Tool J))
    (parse : String → Except String J) (recordAction : σ → Bool × σ) :
    List ToolCall → σ → List ChatMessage × σ
  | [], sec => ([], sec)
  | tc :: rest, sec =>
    let step := toolCallStep tools parse recordAction tc sec
    let r := execute_tool_calls tools parse recordAction rest step.2
    (ChatMessage.tool tc.id step.1 :: r.1, r.2)

/-- Decide whether a chat message is a `User` message. -/
def ChatMessage.isUser : ChatMessage → Bool
  | .user _ => true
  | _ => false

/-- Decide whether a chat message is a `System` message. -/
def ChatMessage.isSystem : ChatMessage → Bool
  | .system _ => true
  | _ => false

/-- The scan of `trim_history` (`src/agent/loop_.rs` lines 155-165): walk the
messages after the system message (`msgs = history[1..]`, `i` the index of the
head of `msgs` in the full history, starting at 1), counting `User` messages;
return the index at which `user_seen` first exceeds `skip`, or the initial
`cut_index = 1` when the loop finishes without breaking. -/
def findCutIndex : List ChatMessage → Nat → Nat → Nat → Nat
  | [], _, _, _ => 1
  | m :: rest, i, userSeen, skip =>
    if m.isUser then
      if skip < userSeen + 1 then i
      else findCutIndex rest (i + 1) (userSeen + 1) skip
    else findCutIndex rest (i + 1) userSeen skip

/-- Trim conversation history to keep at most `maxTurns` User turns
(`trim_history` in `src/agent/loop_.rs` lines 137-168).  `maxTurns == 0` means
no limit; `history.drain(1..cut_index)` is rendered as
`history.take 1 ++ history.drop cut_index`. -/
def trim_history (history : List ChatMessage) (maxTurns : Nat) : List ChatMessage :=
  if maxTurns = 0 then history
  else
    let userCount := (history.filter ChatMessage.isUser).length
    if userCount ≤ maxTurns then history
    else
      let skip := userCount - maxTurns
      let cutIndex := findCutIndex (history.drop 1) 1 0 skip
      history.take 1 ++ history.drop cutIndex

/-- A provider's `chat_with_tools`, modelled as a function of the provider's
internal call counter (mirroring the mock providers of the test suite), the
message history and the tool definitions.  `model` and `temperature` are
forwarded unchanged by the loop and are elided.  The `Except` models
`anyhow::Result`. -/
abbrev ProviderFn := Nat → List ChatMessage → List ToolDefinition → Except String ChatResponse

/-- Result of `run_tool_loop`: the returned `Result<String>`, the final state
of the `&mut history` buffer, the number of provider calls made, the final
security-policy state, and whether the forced-final path (`src/agent/loop_.rs`
lines 255-283, entered when the iteration budget is exhausted) was taken. -/
structure LoopResult (σ : Type) where
  ret : Except String String
  history : List ChatMessage
  providerCalls : Nat
  sec : σ
  forcedFinal : Bool
deriving Repr

/-- The synthetic `User` message pushed when max iterations is reached
(`src/agent/loop_.rs` lines 257-260). -/
def finalAnswerPrompt : String :=
  "你已达到工具调用的最大迭代次数。请根据目前收集的信息，立即给出最终回答。"

/-- Fallback final answer when the forced final call still returns tool use
with no preamble text (`src/agent/loop_.rs` line 276). -/
def finalFallbackText : String := "在迭代次数限制内未能给出最终回答。"

/-- The forced-final path of `run_tool_loop` (`src/agent/loop_.rs` lines
255-283): push the synthetic `User` message, make one provider call with an
empty tool-definition list, and turn the response into the final answer. -/
def final_phase {σ : Type} (provider : ProviderFn) (history : List ChatMessage)
    (callIdx : Nat) (sec : σ) : LoopResult σ :=
  let history := history ++ [ChatMessage.user finalAnswerPrompt]
  match provider callIdx history [] with
  | .error e => ⟨.error e, history, callIdx + 1, sec, true⟩
  | .ok (.text t) =>
    ⟨.ok t, history ++ [ChatMessage.assistant (some t) none], callIdx + 1, sec, true⟩
  | .ok (.toolUse _ text) =>
    let finalText := text.getD finalFallbackText
    ⟨.ok finalText, history ++ [ChatMessage.assistant (some finalText) none],
      callIdx + 1, sec, true⟩

/-- The iteration loop of `run_tool_loop` (`src/agent/loop_.rs` lines 193-253):
`fuel` is the number of remaining iterations of `for iteration in
0..max_iterations`, `callIdx` the number of provider calls made so far.  When
the fuel runs out the forced-final path is taken. -/
def loop_iter {σ J : Type} (provider : ProviderFn) (tools : List (Tool J))
    (toolDefs : List ToolDefinition) (parse : String → Except String J)
    (recordAction : σ → Bool × σ) :
    Nat → List ChatMessage → Nat → σ → LoopResult σ
  | 0, history, callIdx, sec => final_phase provider history callIdx sec
  | fuel + 1, history, callIdx, sec =>
    match provider callIdx history toolDefs with
    | .error e => ⟨.error e, history, callIdx + 1, sec, false⟩
    | .ok (.text t) =>
      ⟨.ok t, history ++ [ChatMessage.assistant (some t) none], callIdx + 1, sec, false⟩
    | .ok (.toolUse toolCalls assistantText) =>
      let afterAssistant := history ++ [ChatMessage.assistant assistantText (some toolCalls)]
      let r := execute_tool_calls tools parse recordAction toolCalls sec
      loop_iter provider tools toolDefs parse recordAction fuel
        (afterAssistant ++ r.1) (callIdx + 1) r.2

/-- Run the tool-calling loop (`run_tool_loop` in `src/agent/loop_.rs` lines
181-284): send messages, parse tool calls, execute, feed back, repeat, up to
`maxIterations` provider calls plus one forced final call. -/
def run_tool_loop {σ J : Type} (provider : ProviderFn) (tools : List (Tool J))
    (toolDefs : List ToolDefinition) (parse : String → Except String J)
    (recordAction : σ → Bool × σ) (maxIterations : Nat)
    (history : List ChatMessage) (sec : σ) : LoopResult σ :=
  loop_iter provider tools toolDefs parse recordAction maxIterations history 0 sec

/-- Remove leading and trailing whitespace (`str::trim`), rendered over the
character list so that it is kernel-computable. -/
def rustTrim (s : String) : String :=
  ⟨((s.data.dropWhile Char.isWhitespace).reverse.dropWhile Char.isWhitespace).reverse⟩

/-- Count the maximal nonempty whitespace-separated runs of a character list:
`inWord` records whether the previous character was inside a field. -/
def countFieldsAux : List Char → Bool → Nat → Nat
  | [], _, n => n
  | c :: rest, inWord, n =>
    if c.isWhitespace then countFieldsAux rest false n
    else if inWord then countFieldsAux rest true n
    else countFieldsAux rest true (n + 1)

/-- Number of whitespace-separated fields of a string
(`expression.split_whitespace().count()` in `src/cron/mod.rs`). -/
def field_count (s : String) : Nat :=
  countFieldsAux s.data false 0

/-- Normalize a cron expression (`normalize_expression` in `src/cron/mod.rs`
lines 227-240): trim, then promote a 5-field expression by prepending the
seconds field `0`, keep 6- or 7-field expressions as-is, reject the rest. -/
def normalize_expression (expression : String) : Except String String :=
  let e := rustTrim expression
  match field_count e with
  | 5 => .ok ("0 " ++ e)
  | 6 => .ok e
  | 7 => .ok e
  | n =>
    .error ("无效的 cron 表达式: " ++ e ++ "（期望 5、6 或 7 个字段，实际为 "
      ++ toString n ++ "）")

/-- How the provider expects the API key to be sent
(`AuthStyle` in `src/providers/compatible.rs`). -/
inductive AuthStyle where
  | bearer
  | xApiKey
  | custom (header : String)
deriving Repr, DecidableEq

/-- A provider that speaks the OpenAI-compatible chat completions API
(`OpenAiCompatibleProvider` in `src/providers/compatible.rs`; the HTTP client
field is elided). -/
structure OpenAiCompatibleProvider where
  name : String
  base_url : String
  api_key : Option String
  auth_header : AuthStyle
deriving Repr, DecidableEq

/-- Strip all trailing `'/'` characters (`base_url.trim_end_matches('/')`). -/
def trimEndSlashes (s : String) : String :=
  ⟨(s.data.reverse.dropWhile fun c => c == '/').reverse⟩

/-- Construct an OpenAI-compatible provider
(`OpenAiCompatibleProvider::new` in `src/providers/compatible.rs` lines 36-48). -/
def OpenAiCompatibleProvider.new (name base_url : String) (api_key : Option String)
    (auth_style : AuthStyle) : OpenAiCompatibleProvider :=
  { name := name
    base_url := trimEndSlashes base_url
    api_key := api_key
    auth_header := auth_style }

/-- Decide whether `pat` is an initial segment of `l`. -/
def charsLead : List Char → List Char → Bool
  | [], _ => true
  | _ :: _, [] => false
  | a :: as, b :: bs => a == b && charsLead as bs

/-- Decide whether `pat` occurs as a contiguous segment of the second list. -/
def charsContain (pat : List Char) : List Char → Bool
  | [] => pat.isEmpty
  | c :: rest => charsLead pat (c :: rest) || charsContain pat rest

/-- Substring test on strings, rendered over the character lists
(`str::contains` with a string pattern). -/
def strContainsSub (s pat : String) : Bool :=
  charsContain pat.data s.data

/-- Suffix test on strings, rendered over the character lists
(`str::ends_with`); used to state the spec's wording of endpoint resolution. -/
def strEndsWithSub (s pat : String) : Bool :=
  charsLead pat.data.reverse s.data.reverse

/-- Build the full URL for chat completions (`chat_completions_url` in
`src/providers/compatible.rs` lines 53-60): if `base_url` already contains
`"chat/completions"`, use it as-is, else append `"/chat/completions"`. -/
def chat_completions_url (p : OpenAiCompatibleProvider) : String :=
  if strContainsSub p.base_url "chat/completions" then p.base_url
  else p.base_url ++ "/chat/completions"

/-- Endpoint resolution as the specification words it: if the configured base
URL already ends with `chat/completions`, use it verbatim, else append
`/chat/completions`.  Stated for comparison with `chat_completions_url`. -/
def chat_completions_url_specSide (p : OpenAiCompatibleProvider) : String :=
  if strEndsWithSub p.base_url "chat/completions" then p.base_url
  else p.base_url ++ "/chat/completions"

/-- Outcome of one run of a supervised component: clean exit (`Ok(())`) or
failure (`Err(_)`). -/
inductive ComponentOutcome where
  | ok
  | err
deriving Repr, DecidableEq

/-- The sleep durations (in seconds) of the supervision loop of
`spawn_component_supervisor` (`src/daemon/mod.rs` lines 252-276), given the
per-iteration outcomes of `run_component()`: on a clean exit the back-off is
reset to `initial_backoff_secs.max(1)`; the loop then sleeps the current
back-off and doubles it, saturating at `maxB`. -/
def supervisorSleeps (initialBackoffSecs maxB : Nat) :
    List ComponentOutcome → Nat → List Nat
  | [], _ => []
  | o :: rest, backoff =>
    let b :=
      match o with
      | .ok => max initialBackoffSecs 1
      | .err => backoff
    b :: supervisorSleeps initialBackoffSecs maxB rest (min (b * 2) maxB)

/-- The full sleep-duration sequence of one supervised component
(`spawn_component_supervisor` in `src/daemon/mod.rs` lines 242-277): the
initial back-off is clamped to at least 1, the maximum to at least the initial. -/
def spawn_component_supervisor_sleeps (initialBackoffSecs maxBackoffSecs : Nat)
    (outcomes : List ComponentOutcome) : List Nat :=
  let backoff := max initialBackoffSecs 1
  let maxBackoff := max maxBackoffSecs backoff
  supervisorSleeps initialBackoffSecs maxBackoff outcomes backoff

/-- The back-off parameters the daemon computes before spawning supervisors
(`run` in `src/daemon/mod.rs` lines 114-118): clamp the configured initial
back-off to at least 1 second, and the configured max back-off up to the
initial back-off. -/
def daemon_run_backoff_params (cfgInitial cfgMax : Nat) : Nat × Nat :=
  let initial := max cfgInitial 1
  (initial, max cfgMax initial)

/-- Modelled from the spec: the security policy's `record_action` (module
`src/security`, not present under `src/`).  Spec section 4.6: take all
tool-call timestamps within the past hour; if their count is at least
`max_actions_per_hour`, reject; else record now and accept. -/
structure SecurityState where
  max_actions_per_hour : Nat
  now : Nat
  action_times : List Nat
deriving Repr, DecidableEq

/-- Modelled from the spec: `SecurityPolicy::record_action` over
`SecurityState` (spec section 4.6), with time in seconds. -/
def record_action (s : SecurityState) : Bool × SecurityState :=
  let recent := s.action_times.filter fun t => s.now < t + 3600
  if s.max_actions_per_hour ≤ recent.length then (false, s)
  else (true, { s with action_times := s.now :: s.action_times })

/-! ## Theorems about the tool harness (`execute_tool_calls`) -/

/-- C1: the tool harness returns exactly one `Tool` message per call, in the
same order as the calls, each carrying the `tool_call_id` of its call.  The
harness is a total function into `List ChatMessage × σ` (the Rust function
returns `Vec<ChatMessage>`, not a `Result`), so no failure kind — unknown
tool, rate-limited, argument-parse failure, execution failure — terminates the
turn: each becomes the error text of the corresponding message's content. -/
theorem c1_execute_tool_calls_shape {σ J : Type} (tools : List (Tool J))
    (parse : String → Except String J) (recordAction : σ → Bool × σ)
    (calls : List ToolCall) (sec : σ) :
    (execute_tool_calls tools parse recordAction calls sec).1.length = calls.length ∧
    ∀ (i : Nat) (tc : ToolCall), calls[i]? = some tc →
      ∃ content, (execute_tool_calls tools parse recordAction calls sec).1[i]? =
        some (ChatMessage.tool tc.id content) := by
  induction calls generalizing sec with
  | nil =>
    refine ⟨rfl, ?_⟩
    intro i tc h
    simp at h
  | cons tc0 rest ih =>
    refine ⟨?_, ?_⟩
    · simpa [execute_tool_calls] using
        (ih (toolCallStep tools parse recordAction tc0 sec).2).1
    · intro i tc h
      cases i with
      | zero =>
        simp only [List.getElem?_cons_zero, Option.some.injEq] at h
        subst h
        refine ⟨(toolCallStep tools parse recordAction tc0 sec).1, ?_⟩
        simp [execute_tool_calls]
      | succ i =>
        simp only [List.getElem?_cons_succ] at h
        obtain ⟨c, hc⟩ := (ih (toolCallStep tools parse recordAction tc0 sec).2).2 i tc h
        refine ⟨c, ?_⟩
        simpa [execute_tool_calls] using hc

/-- C1 witness: a concrete two-call batch (one unknown tool, one rate-limited)
yields exactly two `Tool` messages with the calls' ids, in order. -/
theorem c1_execute_tool_calls_shape_witness :
    (execute_tool_calls (σ := Nat) ([] : List (Tool Unit)) (fun _ => .ok ())
        (fun n => (false, n)) [⟨"call_1", ⟨"echo", "x"⟩⟩, ⟨"call_2", ⟨"echo", "y"⟩⟩]
        0).1.length = 2 ∧
    ∃ content, (execute_tool_calls (σ := Nat) ([] : List (Tool Unit)) (fun _ => .ok ())
        (fun n => (false, n)) [⟨"call_1", ⟨"echo", "x"⟩⟩, ⟨"call_2", ⟨"echo", "y"⟩⟩]
        0).1[1]? = some (ChatMessage.tool "call_2" content) := by
  have h := c1_execute_tool_calls_shape (σ := Nat) ([] : List (Tool Unit)) (fun _ => .ok ())
    (fun n => (false, n)) [⟨"call_1", ⟨"echo", "x"⟩⟩, ⟨"call_2", ⟨"echo", "y"⟩⟩] 0
  exact ⟨h.1, h.2 1 ⟨"call_2", ⟨"echo", "y"⟩⟩ rfl⟩

/-- C6: when a tool call names a tool with no exact name match in the
registry, the harness appends a `Tool` message with the unknown-tool error
string and does not call `record_action` — the rest of the batch is processed
from the *same* security-policy state (true for every possible
`recordAction`, hence no rate budget is consumed), and processing continues
with the remaining calls. -/
theorem c6_unknown_tool_skips_rate_budget {σ J : Type} (tools : List (Tool J))
    (parse : String → Except String J) (recordAction : σ → Bool × σ)
    (tc : ToolCall) (rest : List ToolCall) (sec : σ)
    (h : tools.find? (fun t => t.name == tc.function.name) = none) :
    execute_tool_calls tools parse recordAction (tc :: rest) sec =
      (ChatMessage.tool tc.id ("Error: 未知工具「" ++ tc.function.name ++ "」") ::
          (execute_tool_calls tools parse recordAction rest sec).1,
        (execute_tool_calls tools parse recordAction rest sec).2) := by
  simp [execute_tool_calls, toolCallStep, h]

/-- C6 witness: with the spec-modelled rolling-window security policy, an
unknown-tool call leaves the recorded action timestamps untouched. -/
theorem c6_unknown_tool_skips_rate_budget_witness :
    execute_tool_calls ([] : List (Tool Unit)) (fun _ => .ok ()) record_action
        [⟨"call_1", ⟨"nonexistent_tool", "x"⟩⟩] ⟨10, 0, []⟩ =
      ([ChatMessage.tool "call_1" "Error: 未知工具「nonexistent_tool」"],
        (⟨10, 0, []⟩ : SecurityState)) := by
  rw [c6_unknown_tool_skips_rate_budget ([] : List (Tool Unit)) (fun _ => .ok ())
    record_action ⟨"call_1", ⟨"nonexistent_tool", "x"⟩⟩ [] ⟨10, 0, []⟩ rfl]
  rfl

/-! ## Theorems about cron expression normalization (`normalize_expression`) -/

/-- C7 counterexample: the claim's middle clause says a 6- or 7-field input is
normalized to the input *verbatim*, but `normalize_expression` trims first:
the untrimmed 6-field input `" a b c d e f"` normalizes to `"a b c d e f"`,
not to itself. -/
theorem c7_cron_normalization_counterexample :
    field_count (rustTrim " a b c d e f") = 6 ∧
    normalize_expression " a b c d e f" = .ok "a b c d e f" ∧
    normalize_expression " a b c d e f" ≠ .ok " a b c d e f" := by
  refine ⟨rfl, rfl, fun h => ?_⟩
  exact absurd (Except.ok.inj h) (by decide)

/-- C7 amended: for every *trimmed* input with exactly 5 fields the normalized
form is `"0 "` prepended; for every *trimmed* input with 6 or 7 fields the
normalized form equals the input verbatim; every other field count is
rejected with an error. -/
theorem c7_cron_normalization (expression : String) :
    (rustTrim expression = expression → field_count expression = 5 →
      normalize_expression expression = .ok ("0 " ++ expression)) ∧
    (rustTrim expression = expression →
      field_count expression = 6 ∨ field_count expression = 7 →
      normalize_expression expression = .ok expression) ∧
    (field_count (rustTrim expression) ≠ 5 → field_count (rustTrim expression) ≠ 6 →
      field_count (rustTrim expression) ≠ 7 →
      ∃ msg, normalize_expression expression = .error msg) := by
  refine ⟨?_, ?_, ?_⟩
  · intro ht h5
    simp only [normalize_expression]
    rw [ht, h5]
  · intro ht h67
    simp only [normalize_expression]
    rcases h67 with h6 | h7
    · rw [ht, h6]
    · rw [ht, h7]
  · intro h5 h6 h7
    simp only [normalize_expression]
    exact ⟨_, rfl⟩

/-- C7 witness: a 5-field expression gains a leading `0`, a 6-field one is
returned verbatim, and a 2-field one is rejected. -/
theorem c7_cron_normalization_witness :
    normalize_expression "* * * * *" = .ok ("0 " ++ "* * * * *") ∧
    normalize_expression "1 2 3 4 5 6" = .ok "1 2 3 4 5 6" ∧
    ∃ msg, normalize_expression "a b" = .error msg :=
  ⟨(c7_cron_normalization "* * * * *").1 rfl rfl,
    (c7_cron_normalization "1 2 3 4 5 6").2.1 rfl (Or.inl rfl),
    (c7_cron_normalization "a b").2.2 (by decide) (by decide) (by decide)⟩

/-! ## Theorems about endpoint resolution (`chat_completions_url`) -/

/-- Bridge between the Boolean `charsLead` and `List.IsPrefix`. -/
theorem charsLead_iff (p l : List Char) : charsLead p l = true ↔ p <+: l := by
  induction p generalizing l with
  | nil => simp [charsLead, List.nil_prefix]
  | cons a as ih =>
    cases l with
    | nil => simp [charsLead, List.prefix_nil]
    | cons b bs =>
      simp [charsLead, List.cons_prefix_cons, ih, Bool.and_eq_true, beq_iff_eq]

/-- Bridge between the Boolean `charsContain` and `List.IsInfix`. -/
theorem charsContain_iff (p l : List Char) : charsContain p l = true ↔ p <:+: l := by
  induction l with
  | nil => simp [charsContain, List.isEmpty_iff, List.infix_nil]
  | cons c rest ih =>
    simp [charsContain, Bool.or_eq_true, charsLead_iff, ih, List.infix_cons_iff]

/-- A string that ends with a pattern also contains it as a substring. -/
theorem strEndsWithSub_strContainsSub (s pat : String)
    (h : strEndsWithSub s pat = true) : strContainsSub s pat = true := by
  unfold strEndsWithSub at h
  have h1 : pat.data.reverse <+: s.data.reverse := (charsLead_iff _ _).mp h
  have h2 : pat.data <:+ s.data := List.reverse_prefix.mp h1
  exact (charsContain_iff _ _).mpr h2.isInfix

/-- C8 counterexample: the claim says a trimmed base URL that does *not* end
with `chat/completions` gets `/chat/completions` appended, but the code only
checks substring containment: `https://h/chat/completions/v2` does not end
with `chat/completions`, yet it is used verbatim rather than having the path
appended. -/
theorem c8_endpoint_resolution_counterexample :
    strEndsWithSub (OpenAiCompatibleProvider.new "p" "https://h/chat/completions/v2" none
        AuthStyle.bearer).base_url "chat/completions" = false ∧
    chat_completions_url (OpenAiCompatibleProvider.new "p" "https://h/chat/completions/v2" none
        AuthStyle.bearer) = "https://h/chat/completions/v2" ∧
    chat_completions_url (OpenAiCompatibleProvider.new "p" "https://h/chat/completions/v2" none
        AuthStyle.bearer) ≠
      chat_completions_url_specSide (OpenAiCompatibleProvider.new "p"
        "https://h/chat/completions/v2" none AuthStyle.bearer) := by
  refine ⟨by decide, by decide, by decide⟩

/-- C8 amended: the constructed provider's base URL is the configured one with
trailing slashes trimmed; if it *contains* `chat/completions` (in particular
whenever it ends with it) the URL is used verbatim, and otherwise
`/chat/completions` is appended. -/
theorem c8_endpoint_resolution (name base_url : String) (api_key : Option String)
    (auth_style : AuthStyle) :
    (OpenAiCompatibleProvider.new name base_url api_key auth_style).base_url =
      trimEndSlashes base_url ∧
    (strContainsSub (OpenAiCompatibleProvider.new name base_url api_key auth_style).base_url
        "chat/completions" = true →
      chat_completions_url (OpenAiCompatibleProvider.new name base_url api_key auth_style) =
        (OpenAiCompatibleProvider.new name base_url api_key auth_style).base_url) ∧
    (strContainsSub (OpenAiCompatibleProvider.new name base_url api_key auth_style).base_url
        "chat/completions" = false →
      chat_completions_url (OpenAiCompatibleProvider.new name base_url api_key auth_style) =
        (OpenAiCompatibleProvider.new name base_url api_key auth_style).base_url ++
          "/chat/completions") ∧
    (strEndsWithSub (OpenAiCompatibleProvider.new name base_url api_key auth_style).base_url
        "chat/completions" = true →
      chat_completions_url (OpenAiCompatibleProvider.new name base_url api_key auth_style) =
        (OpenAiCompatibleProvider.new name base_url api_key auth_style).base_url) := by
  refine ⟨rfl, ?_, ?_, ?_⟩
  · intro h
    simp [chat_completions_url, h]
  · intro h
    simp [chat_completions_url, h]
  · intro h
    simp [chat_completions_url, strEndsWithSub_strContainsSub _ _ h]

/-- C8 witness: a standard base URL with a trailing slash is trimmed and gets
`/chat/completions` appended; a base URL already ending in the path is used
verbatim. -/
theorem c8_endpoint_resolution_witness :
    chat_completions_url (OpenAiCompatibleProvider.new "x" "https://api.example.com/v1/" none
        AuthStyle.bearer) = "https://api.example.com/v1" ++ "/chat/completions" ∧
    chat_completions_url (OpenAiCompatibleProvider.new "x"
        "https://api.example.com/v1/chat/completions" none AuthStyle.bearer) =
      "https://api.example.com/v1/chat/completions" :=
  ⟨(c8_endpoint_resolution "x" "https://api.example.com/v1/" none AuthStyle.bearer).2.2.1
      (by decide),
    (c8_endpoint_resolution "x" "https://api.example.com/v1/chat/completions" none
      AuthStyle.bearer).2.2.2 (by decide)⟩

/-! ## Theorems about the daemon supervisor back-off -/

/-- Multiplying a capped value and re-capping is the same as capping the
product, for a positive multiplier. -/
theorem min_mul_min_cap (a x M : Nat) (ha : 1 ≤ a) :
    min (a * min x M) M = min (a * x) M := by
  rcases le_total x M with h | h
  · rw [min_eq_left h]
  · rw [min_eq_right h, min_eq_right (Nat.le_mul_of_pos_left M ha),
      min_eq_right (h.trans (Nat.le_mul_of_pos_left x ha))]

/-- For a continuously failing component the `k`-th sleep is the starting
back-off doubled `k` times, capped at `maxB`. -/
theorem supervisorSleeps_replicate_err (i0 maxB : Nat) :
    ∀ (n k β : Nat), β ≤ maxB → k < n →
      (supervisorSleeps i0 maxB (List.replicate n .err) β)[k]? =
        some (min (2 ^ k * β) maxB) := by
  intro n
  induction n with
  | zero => intro k β _ hk; omega
  | succ n ih =>
    intro k β hβ hk
    rw [List.replicate_succ]
    cases k with
    | zero =>
      simp [supervisorSleeps, pow_zero, one_mul, min_eq_left hβ]
    | succ k =>
      have hrec := ih k (min (β * 2) maxB) (min_le_right _ _) (by omega)
      calc (supervisorSleeps i0 maxB (ComponentOutcome.err :: List.replicate n .err) β)[k + 1]?
          = (supervisorSleeps i0 maxB (List.replicate n .err) (min (β * 2) maxB))[k]? := by
            simp [supervisorSleeps]
        _ = some (min (2 ^ k * min (β * 2) maxB) maxB) := hrec
        _ = some (min (2 ^ (k + 1) * β) maxB) := by
            rw [min_mul_min_cap _ _ _ (Nat.one_le_two_pow)]
            congr 2
            rw [pow_succ]
            ring

/-- A clean (`Ok`) exit resets the back-off: the sleep taken right after it is
the clamped initial back-off, whatever happened before. -/
theorem supervisorSleeps_ok_reset (i0 maxB : Nat) :
    ∀ (outcomesBefore rest : List ComponentOutcome) (β : Nat),
      (supervisorSleeps i0 maxB (outcomesBefore ++ .ok :: rest) β)[outcomesBefore.length]? =
        some (max i0 1) := by
  intro outcomesBefore
  induction outcomesBefore with
  | nil => intro rest β; simp [supervisorSleeps]
  | cons o pre ih =>
    intro rest β
    simp only [List.cons_append, supervisorSleeps, List.length_cons,
      List.getElem?_cons_succ]
    exact ih rest _

/-- C9: with `b` the configured initial back-off clamped to at least 1 second
and `M` the configured max back-off clamped up to at least `b` (the clamping
done by `daemon::run` composed with `spawn_component_supervisor`), the sleep
sequence of a continuously failing component is
`b, min(2b, M), min(4b, M), …` — the `k`-th sleep is `min(2^k * b, M)` — and a
clean (`Ok`) component exit resets the back-off to `b` for the next sleep. -/
theorem c9_supervisor_backoff (cfgInitial cfgMax : Nat) :
    (∀ n k : Nat, k < n →
      (spawn_component_supervisor_sleeps (daemon_run_backoff_params cfgInitial cfgMax).1
          (daemon_run_backoff_params cfgInitial cfgMax).2 (List.replicate n .err))[k]? =
        some (min (2 ^ k * max cfgInitial 1) (max cfgMax (max cfgInitial 1)))) ∧
    (∀ outcomesBefore rest : List ComponentOutcome,
      (spawn_component_supervisor_sleeps (daemon_run_backoff_params cfgInitial cfgMax).1
          (daemon_run_backoff_params cfgInitial cfgMax).2
          (outcomesBefore ++ .ok :: rest))[outcomesBefore.length]? =
        some (max cfgInitial 1)) := by
  have e1 : max (max cfgInitial 1) 1 = max cfgInitial 1 := by omega
  have e2 : max (max cfgMax (max cfgInitial 1)) (max cfgInitial 1) =
      max cfgMax (max cfgInitial 1) := by omega
  constructor
  · intro n k hk
    simp only [spawn_component_supervisor_sleeps, daemon_run_backoff_params, e1, e2]
    exact supervisorSleeps_replicate_err _ _ n k _ (le_max_right _ _) hk
  · intro outcomesBefore rest
    simp only [spawn_component_supervisor_sleeps, daemon_run_backoff_params, e1, e2]
    have h := supervisorSleeps_ok_reset (max cfgInitial 1)
      (max cfgMax (max cfgInitial 1)) outcomesBefore rest (max cfgInitial 1)
    rw [e1] at h
    exact h

/-- C9 witness: configured back-offs 2 and 5 give a failing component the
sleeps 2, 4, 5, 5, …, and an `Ok` exit after two failures sleeps 2 again. -/
theorem c9_supervisor_backoff_witness :
    (spawn_component_supervisor_sleeps (daemon_run_backoff_params 2 5).1
        (daemon_run_backoff_params 2 5).2 (List.replicate 4 .err))[3]? = some 5 ∧
    (spawn_component_supervisor_sleeps (daemon_run_backoff_params 2 5).1
        (daemon_run_backoff_params 2 5).2
        ([.err, .err] ++ .ok :: [.err]))[([ComponentOutcome.err, .err]).length]? =
      some 2 := by
  constructor
  · have h := (c9_supervisor_backoff 2 5).1 4 3 (by omega)
    simpa using h
  · have h := (c9_supervisor_backoff 2 5).2 [.err, .err] [.err]
    simpa using h

/-! ## Theorems about the tool loop's iteration budget -/

/-- Every run of the iteration loop makes at most `fuel + 1` further provider
calls: one per remaining iteration plus the forced final call. -/
theorem loop_iter_calls_le {σ J : Type} (provider : ProviderFn) (tools : List (Tool J))
    (toolDefs : List ToolDefinition) (parse : String → Except String J)
    (recordAction : σ → Bool × σ) :
    ∀ (fuel : Nat) (history : List ChatMessage) (callIdx : Nat) (sec : σ),
      (loop_iter provider tools toolDefs parse recordAction fuel history
          callIdx sec).providerCalls ≤ callIdx + fuel + 1 := by
  intro fuel
  induction fuel with
  | zero =>
    intro history callIdx sec
    simp only [loop_iter, final_phase]
    split <;> simp
  | succ fuel ih =>
    intro history callIdx sec
    cases hp : provider callIdx history toolDefs with
    | error e => simp [loop_iter, hp]
    | ok r =>
      cases r with
      | text t => simp [loop_iter, hp]
      | toolUse calls atext =>
        simp only [loop_iter, hp]
        exact (ih _ _ _).trans (by omega)

/-- When the provider answers every call with `ToolUse`, the loop makes
exactly `fuel + 1` further provider calls. -/
theorem loop_iter_calls_eq {σ J : Type} (provider : ProviderFn) (tools : List (Tool J))
    (toolDefs : List ToolDefinition) (parse : String → Except String J)
    (recordAction : σ → Bool × σ)
    (hAll : ∀ (i : Nat) (h : List ChatMessage) (td : List ToolDefinition),
      ∃ calls text, provider i h td = .ok (.toolUse calls text)) :
    ∀ (fuel : Nat) (history : List ChatMessage) (callIdx : Nat) (sec : σ),
      (loop_iter provider tools toolDefs parse recordAction fuel history
          callIdx sec).providerCalls = callIdx + fuel + 1 := by
  intro fuel
  induction fuel with
  | zero =>
    intro history callIdx sec
    obtain ⟨calls, text, hp⟩ := hAll callIdx (history ++ [ChatMessage.user finalAnswerPrompt]) []
    simp [loop_iter, final_phase, hp]
  | succ fuel ih =>
    intro history callIdx sec
    obtain ⟨calls, text, hp⟩ := hAll callIdx history toolDefs
    simp only [loop_iter, hp]
    rw [ih]
    omega

/-- C2: every invocation of `run_tool_loop` with iteration budget
`maxIterations` makes at most `maxIterations + 1` provider calls; and when the
provider returns `ToolUse` on every call, a budget of 3 makes exactly 4
provider calls. -/
theorem c2_iteration_bound {σ J : Type} (provider : ProviderFn) (tools : List (Tool J))
    (toolDefs : List ToolDefinition) (parse : String → Except String J)
    (recordAction : σ → Bool × σ) (maxIterations : Nat) (history : List ChatMessage)
    (sec : σ) :
    (run_tool_loop provider tools toolDefs parse recordAction maxIterations history
        sec).providerCalls ≤ maxIterations + 1 ∧
    ((∀ (i : Nat) (h : List ChatMessage) (td : List ToolDefinition),
        ∃ calls text, provider i h td = .ok (.toolUse calls text)) →
      (run_tool_loop provider tools toolDefs parse recordAction 3 history
          sec).providerCalls = 4) := by
  constructor
  · simpa [run_tool_loop] using
      loop_iter_calls_le provider tools toolDefs parse recordAction maxIterations history 0 sec
  · intro hAll
    simpa [run_tool_loop] using
      loop_iter_calls_eq provider tools toolDefs parse recordAction hAll 3 history 0 sec

/-- C2 witness: a provider that always wants tools drives a budget-3 loop to
exactly 4 provider calls. -/
theorem c2_iteration_bound_witness :
    (run_tool_loop (σ := Unit) (J := Unit) (fun _ _ _ => .ok (.toolUse [] none)) [] []
        (fun _ => .ok ()) (fun s => (true, s)) 3 [ChatMessage.system "s"] ()).providerCalls =
      4 :=
  (c2_iteration_bound (fun _ _ _ => .ok (.toolUse [] none)) [] [] (fun _ => .ok ())
      (fun s => (true, s)) 3 [ChatMessage.system "s"] ()).2 (fun _ _ _ => ⟨[], none, rfl⟩)

/-- C10: with `max_iterations = 0` the loop body is never entered:
`run_tool_loop` goes straight to the forced-final path, appends the synthetic
final-answer `User` message, makes exactly one provider call (with the empty
tool-definition list baked into `final_phase`), and on success appends one
`Assistant` message with `some` content — so the history grows by exactly two
messages. -/
theorem c10_zero_budget {σ J : Type} (provider : ProviderFn) (tools : List (Tool J))
    (toolDefs : List ToolDefinition) (parse : String → Except String J)
    (recordAction : σ → Bool × σ) (history : List ChatMessage) (sec : σ) :
    run_tool_loop provider tools toolDefs parse recordAction 0 history sec =
      final_phase provider history 0 sec ∧
    (final_phase provider history 0 sec).forcedFinal = true ∧
    (final_phase provider history 0 sec).providerCalls = 1 ∧
    (∃ rest, (final_phase provider history 0 sec).history =
      history ++ ChatMessage.user finalAnswerPrompt :: rest) ∧
    ∀ t, (final_phase provider history 0 sec).ret = .ok t →
      (final_phase provider history 0 sec).history =
        history ++ [ChatMessage.user finalAnswerPrompt, ChatMessage.assistant (some t) none] ∧
      (final_phase provider history 0 sec).history.length = history.length + 2 := by
  cases hp : provider 0 (history ++ [ChatMessage.user finalAnswerPrompt]) [] with
  | error e =>
    refine ⟨rfl, by simp [final_phase, hp], by simp [final_phase, hp],
      ⟨[], by simp [final_phase, hp]⟩, ?_⟩
    intro t ht
    simp [final_phase, hp] at ht
  | ok r =>
    cases r with
    | text t0 =>
      refine ⟨rfl, by simp [final_phase, hp], by simp [final_phase, hp],
        ⟨[ChatMessage.assistant (some t0) none], by simp [final_phase, hp]⟩, ?_⟩
      intro t ht
      have he : t0 = t := by simpa [final_phase, hp] using ht
      subst he
      exact ⟨by simp [final_phase, hp], by simp [final_phase, hp]⟩
    | toolUse calls preamble =>
      refine ⟨rfl, by simp [final_phase, hp], by simp [final_phase, hp],
        ⟨[ChatMessage.assistant (some (preamble.getD finalFallbackText)) none],
          by simp [final_phase, hp]⟩, ?_⟩
      intro t ht
      have he : preamble.getD finalFallbackText = t := by simpa [final_phase, hp] using ht
      subst he
      exact ⟨by simp [final_phase, hp], by simp [final_phase, hp]⟩

/-- C10 witness: with budget 0 and a provider answering `Text("done")`, the
history `[System]` becomes `[System, User(prompt), Assistant(some "done")]`
after exactly one provider call. -/
theorem c10_zero_budget_witness :
    (run_tool_loop (σ := Unit) (J := Unit) (fun _ _ _ => .ok (.text "done")) [] []
        (fun _ => .ok ()) (fun s => (true, s)) 0 [ChatMessage.system "s"] ()).history =
      [ChatMessage.system "s", ChatMessage.user finalAnswerPrompt,
        ChatMessage.assistant (some "done") none] ∧
    (run_tool_loop (σ := Unit) (J := Unit) (fun _ _ _ => .ok (.text "done")) [] []
        (fun _ => .ok ()) (fun s => (true, s)) 0 [ChatMessage.system "s"] ()).providerCalls =
      1 := by
  have h := c10_zero_budget (σ := Unit) (J := Unit) (fun _ _ _ => .ok (.text "done")) [] []
    (fun _ => .ok ()) (fun s => (true, s)) [ChatMessage.system "s"] ()
  have h2 := (h.2.2.2.2 "done" rfl).1
  constructor
  · rw [h.1]
    simpa using h2
  · rw [h.1]
    exact h.2.2.1

/-- The forced-final path is only ever the result of `final_phase` applied to
some intermediate history, call index and security state. -/
theorem loop_iter_forcedFinal_eq {σ J : Type} (provider : ProviderFn) (tools : List (Tool J))
    (toolDefs : List ToolDefinition) (parse : String → Except String J)
    (recordAction : σ → Bool × σ) :
    ∀ (fuel : Nat) (history : List ChatMessage) (callIdx : Nat) (sec : σ),
      (loop_iter provider tools toolDefs parse recordAction fuel history
          callIdx sec).forcedFinal = true →
      ∃ h' idx sec', loop_iter provider tools toolDefs parse recordAction fuel history
          callIdx sec = final_phase provider h' idx sec' := by
  intro fuel
  induction fuel with
  | zero =>
    intro history callIdx sec _
    exact ⟨history, callIdx, sec, rfl⟩
  | succ fuel ih =>
    intro history callIdx sec hf
    cases hp : provider callIdx history toolDefs with
    | error e => simp [loop_iter, hp] at hf
    | ok r =>
      cases r with
      | text t => simp [loop_iter, hp] at hf
      | toolUse calls atext =>
        simp only [loop_iter, hp] at hf ⊢
        exact ih _ _ _ hf

/-- C3: if `run_tool_loop` exhausts its budget without the provider returning
`Text` (observable as the forced-final path having been taken), the result is
`final_phase` on some intermediate state: one synthetic `User` message is
appended, exactly one additional provider call is made with the empty
tool-definition list, a `Text(t)` answer returns `t`, a `ToolUse` answer
returns its preamble or the fixed fallback, and in each successful case an
`Assistant` message with `some` content is appended before returning. -/
theorem c3_forced_final {σ J : Type} (provider : ProviderFn) (tools : List (Tool J))
    (toolDefs : List ToolDefinition) (parse : String → Except String J)
    (recordAction : σ → Bool × σ) (maxIterations : Nat) (history : List ChatMessage) (sec : σ)
    (hf : (run_tool_loop provider tools toolDefs parse recordAction maxIterations history
        sec).forcedFinal = true) :
    ∃ h' idx sec',
      run_tool_loop provider tools toolDefs parse recordAction maxIterations history sec =
        final_phase provider h' idx sec' ∧
      (final_phase provider h' idx sec').providerCalls = idx + 1 ∧
      (match provider idx (h' ++ [ChatMessage.user finalAnswerPrompt]) [] with
       | .ok (.text t) =>
         (final_phase provider h' idx sec').ret = .ok t ∧
         (final_phase provider h' idx sec').history =
           h' ++ [ChatMessage.user finalAnswerPrompt, ChatMessage.assistant (some t) none]
       | .ok (.toolUse _ preamble) =>
         (final_phase provider h' idx sec').ret = .ok (preamble.getD finalFallbackText) ∧
         (final_phase provider h' idx sec').history =
           h' ++ [ChatMessage.user finalAnswerPrompt,
             ChatMessage.assistant (some (preamble.getD finalFallbackText)) none]
       | .error e =>
         (final_phase provider h' idx sec').ret = .error e ∧
         (final_phase provider h' idx sec').history =
           h' ++ [ChatMessage.user finalAnswerPrompt]) := by
  obtain ⟨h', idx, sec', heq⟩ := loop_iter_forcedFinal_eq provider tools toolDefs parse
    recordAction maxIterations history 0 sec (by simpa [run_tool_loop] using hf)
  refine ⟨h', idx, sec', by simpa [run_tool_loop] using heq, ?_, ?_⟩
  · cases hp : provider idx (h' ++ [ChatMessage.user finalAnswerPrompt]) [] with
    | error e => simp [final_phase, hp]
    | ok r => cases r <;> simp [final_phase, hp]
  · cases hp : provider idx (h' ++ [ChatMessage.user finalAnswerPrompt]) [] with
    | error e => simp [final_phase, hp]
    | ok r =>
      cases r with
      | text t => simp [final_phase, hp]
      | toolUse calls preamble => simp [final_phase, hp]

/-- C3 witness: with budget 0 and a provider that still wants tools on the
forced final call with no preamble, the fallback text is returned. -/
theorem c3_forced_final_witness :
    (run_tool_loop (σ := Unit) (J := Unit) (fun _ _ _ => .ok (.toolUse [] none)) [] []
        (fun _ => .ok ()) (fun s => (true, s)) 0 [ChatMessage.system "s"] ()).ret =
      .ok finalFallbackText := by
  obtain ⟨h', idx, sec', heq, hcalls, hm⟩ := c3_forced_final (σ := Unit) (J := Unit)
    (fun _ _ _ => .ok (.toolUse [] none)) [] [] (fun _ => .ok ()) (fun s => (true, s)) 0
    [ChatMessage.system "s"] () rfl
  rw [heq]
  exact hm.1

/-! ## Theorems about history trimming (`trim_history`) -/

/-- Position (0-indexed) of the `(k+1)`-th `User` message of a list, if any. -/
def posOfNthUser : List ChatMessage → Nat → Option Nat
  | [], _ => none
  | .user _ :: _, 0 => some 0
  | .user _ :: rest, k + 1 => (posOfNthUser rest k).map (· + 1)
  | .system _ :: rest, k => (posOfNthUser rest k).map (· + 1)
  | .assistant _ _ :: rest, k => (posOfNthUser rest k).map (· + 1)
  | .tool _ _ :: rest, k => (posOfNthUser rest k).map (· + 1)

/-- The scan of `trim_history` returns exactly the index (offset by the
starting index `i`) of the first `User` message that makes `userSeen` exceed
`skip`. -/
theorem findCutIndex_eq_pos (msgs : List ChatMessage) :
    ∀ (i userSeen skip p : Nat), userSeen ≤ skip →
      posOfNthUser msgs (skip - userSeen) = some p →
      findCutIndex msgs i userSeen skip = i + p := by
  induction msgs with
  | nil =>
    intro i userSeen skip p _ hp
    simp [posOfNthUser] at hp
  | cons m rest ih =>
    intro i userSeen skip p hle hp
    cases m with
    | user c =>
      rcases Nat.eq_or_lt_of_le hle with heq | hlt
      · subst heq
        rw [Nat.sub_self] at hp
        simp [posOfNthUser] at hp
        rw [findCutIndex, if_pos (show (ChatMessage.user c).isUser = true by rfl), if_pos (by omega)]
        omega
      · have hk : skip - userSeen = (skip - (userSeen + 1)) + 1 := by omega
        rw [hk, posOfNthUser] at hp
        rcases Option.map_eq_some'.mp hp with ⟨q, hq, hpq⟩
        rw [findCutIndex, if_pos (show (ChatMessage.user c).isUser = true by rfl), if_neg (by omega),
          ih (i + 1) (userSeen + 1) skip q (by omega) hq]
        omega
    | system c =>
      rw [posOfNthUser] at hp
      rcases Option.map_eq_some'.mp hp with ⟨q, hq, hpq⟩
      rw [findCutIndex, if_neg (by simp [ChatMessage.isUser]),
        ih (i + 1) userSeen skip q hle hq]
      omega
    | assistant c tcs =>
      rw [posOfNthUser] at hp
      rcases Option.map_eq_some'.mp hp with ⟨q, hq, hpq⟩
      rw [findCutIndex, if_neg (by simp [ChatMessage.isUser]),
        ih (i + 1) userSeen skip q hle hq]
      omega
    | tool tid c =>
      rw [posOfNthUser] at hp
      rcases Option.map_eq_some'.mp hp with ⟨q, hq, hpq⟩
      rw [findCutIndex, if_neg (by simp [ChatMessage.isUser]),
        ih (i + 1) userSeen skip q hle hq]
      omega

/-- C4: `trim_history` is the identity when `maxTurns = 0` or when the `User`
count is within the limit; otherwise, with `skip = userCount - maxTurns`, it
removes exactly the index range `[1, i)` where `i = 1 + p` and `p` is the
position of the `(skip+1)`-th `User` message among `history[1..]` — so index 0
and everything from the cut onward survive unchanged and in order. -/
theorem c4_trim_history (history : List ChatMessage) (maxTurns : Nat) :
    trim_history history 0 = history ∧
    ((history.filter ChatMessage.isUser).length ≤ maxTurns →
      trim_history history maxTurns = history) ∧
    (maxTurns ≠ 0 → maxTurns < (history.filter ChatMessage.isUser).length →
      ∀ p, posOfNthUser (history.drop 1)
          ((history.filter ChatMessage.isUser).length - maxTurns) = some p →
        trim_history history maxTurns = history.take 1 ++ history.drop (1 + p)) := by
  refine ⟨by simp [trim_history], ?_, ?_⟩
  · intro hle
    by_cases h0 : maxTurns = 0
    · simp [trim_history, h0]
    · simp [trim_history, h0, hle]
  · intro h0 hlt p hp
    have hcut : findCutIndex (history.drop 1) 1 0
        ((history.filter ChatMessage.isUser).length - maxTurns) = 1 + p :=
      findCutIndex_eq_pos _ 1 0 _ p (Nat.zero_le _) (by simpa using hp)
    simp only [trim_history]
    rw [if_neg h0, if_neg (by omega), hcut]

/-- C4 witness: the literal history-trim scenario of the test suite — three
user turns trimmed to the last two. -/
theorem c4_trim_history_witness :
    trim_history
        [ChatMessage.system "sys", ChatMessage.user "msg1",
          ChatMessage.assistant (some "resp1") none, ChatMessage.user "msg2",
          ChatMessage.assistant (some "resp2") none, ChatMessage.user "msg3",
          ChatMessage.assistant (some "resp3") none] 2 =
      [ChatMessage.system "sys", ChatMessage.user "msg2",
        ChatMessage.assistant (some "resp2") none, ChatMessage.user "msg3",
        ChatMessage.assistant (some "resp3") none] := by
  have h := (c4_trim_history
    [ChatMessage.system "sys", ChatMessage.user "msg1",
      ChatMessage.assistant (some "resp1") none, ChatMessage.user "msg2",
      ChatMessage.assistant (some "resp2") none, ChatMessage.user "msg3",
      ChatMessage.assistant (some "resp3") none] 2).2.2 (by decide) (by decide) 2 (by decide)
  rw [h]
  rfl

/-! ## History shape and tool-result pairing invariants -/

/-- Membership of a call id in a list of ids. -/
def idMem (id : String) : List String → Bool
  | [] => false
  | x :: rest => x == id || idMem id rest

/-- Shape invariant: index 0 is a `System` message and no other index is. -/
def history_shape_ok : List ChatMessage → Bool
  | .system _ :: rest => rest.all fun m => !m.isSystem
  | _ => false

/-- Scan checking tool-result pairing: every `Tool{tool_call_id}` is preceded
by an `Assistant` whose `tool_calls` contains a call with that id.  `seen` is
the set of call ids announced by earlier assistants. -/
def pairScanOk : List ChatMessage → List String → Bool
  | [], _ => true
  | .tool tid _ :: rest, seen => idMem tid seen && pairScanOk rest seen
  | .assistant _ (some calls) :: rest, seen =>
    pairScanOk rest (seen ++ calls.map fun tc => tc.id)
  | _ :: rest, seen => pairScanOk rest seen

/-- Call ids announced by the assistants of a message list, appended to `seen`. -/
def pairCollect : List ChatMessage → List String → List String
  | [], seen => seen
  | .assistant _ (some calls) :: rest, seen =>
    pairCollect rest (seen ++ calls.map fun tc => tc.id)
  | _ :: rest, seen => pairCollect rest seen

/-- Tool-result pairing invariant of a history. -/
def tool_pairing_ok (history : List ChatMessage) : Bool :=
  pairScanOk history []

/-- Like `pairScanOk` but the announced ids reset at every `User` message:
this checks that each `Tool` result's matching `Assistant` lies in the same
user turn (no `User` message between them). -/
def clusterScanOk : List ChatMessage → List String → Bool
  | [], _ => true
  | .user _ :: rest, _ => clusterScanOk rest []
  | .tool tid _ :: rest, seen => idMem tid seen && clusterScanOk rest seen
  | .assistant _ (some calls) :: rest, seen =>
    clusterScanOk rest (seen ++ calls.map fun tc => tc.id)
  | _ :: rest, seen => clusterScanOk rest seen

/-- The `seen` set resulting from scanning a message list with per-turn reset. -/
def clusterCollect : List ChatMessage → List String → List String
  | [], seen => seen
  | .user _ :: rest, _ => clusterCollect rest []
  | .assistant _ (some calls) :: rest, seen =>
    clusterCollect rest (seen ++ calls.map fun tc => tc.id)
  | _ :: rest, seen => clusterCollect rest seen

/-- Clustering invariant: every `Tool` result is paired with an `Assistant`
of the same user turn. -/
def tool_clustering_ok (history : List ChatMessage) : Bool :=
  clusterScanOk history []

/-- Membership distributes over append. -/
theorem idMem_append (id : String) (a b : List String) :
    idMem id (a ++ b) = (idMem id a || idMem id b) := by
  induction a with
  | nil => simp [idMem]
  | cons x rest ih => simp [idMem, ih, Bool.or_assoc]

/-- The id of a member call is in the mapped id list. -/
theorem idMem_map_id (tc : ToolCall) (calls : List ToolCall) (h : tc ∈ calls) :
    idMem tc.id (calls.map fun tc => tc.id) = true := by
  induction calls with
  | nil => simp at h
  | cons c rest ih =>
    rcases List.mem_cons.mp h with heq | hmem
    · subst heq
      simp [idMem]
    · simp [idMem, ih hmem]

/-- The pairing scan splits over append. -/
theorem pairScanOk_append (xs ys : List ChatMessage) :
    ∀ seen, pairScanOk (xs ++ ys) seen =
      (pairScanOk xs seen && pairScanOk ys (pairCollect xs seen)) := by
  induction xs with
  | nil => intro seen; simp [pairScanOk, pairCollect]
  | cons m rest ih =>
    intro seen
    cases m with
    | system c => simp [pairScanOk, pairCollect, ih]
    | user c => simp [pairScanOk, pairCollect, ih]
    | assistant c tcs =>
      cases tcs with
      | none => simp [pairScanOk, pairCollect, ih]
      | some calls => simp [pairScanOk, pairCollect, ih]
    | tool tid c => simp [pairScanOk, pairCollect, ih, Bool.and_assoc]

/-- The clustering scan splits over append. -/
theorem clusterScanOk_append (xs ys : List ChatMessage) :
    ∀ seen, clusterScanOk (xs ++ ys) seen =
      (clusterScanOk xs seen && clusterScanOk ys (clusterCollect xs seen)) := by
  induction xs with
  | nil => intro seen; simp [clusterScanOk, clusterCollect]
  | cons m rest ih =>
    intro seen
    cases m with
    | system c => simp [clusterScanOk, clusterCollect, ih]
    | user c => simp [clusterScanOk, clusterCollect, ih]
    | assistant c tcs =>
      cases tcs with
      | none => simp [clusterScanOk, clusterCollect, ih]
      | some calls => simp [clusterScanOk, clusterCollect, ih]
    | tool tid c => simp [clusterScanOk, clusterCollect, ih, Bool.and_assoc]

/-- A history passing the per-turn clustering scan passes the plain pairing
scan with any larger `seen` set. -/
theorem clusterScanOk_pairScanOk (l : List ChatMessage) :
    ∀ s₁ s₂, (∀ id, idMem id s₁ = true → idMem id s₂ = true) →
      clusterScanOk l s₁ = true → pairScanOk l s₂ = true := by
  induction l with
  | nil => intro s₁ s₂ _ _; rfl
  | cons m rest ih =>
    intro s₁ s₂ hsub hc
    cases m with
    | system c => exact ih s₁ s₂ hsub hc
    | user c => exact ih [] s₂ (fun id h => by simp [idMem] at h) hc
    | assistant c tcs =>
      cases tcs with
      | none => exact ih s₁ s₂ hsub hc
      | some calls =>
        refine ih (s₁ ++ calls.map fun tc => tc.id) (s₂ ++ calls.map fun tc => tc.id) ?_ hc
        intro id h
        rw [idMem_append] at h ⊢
        rcases Bool.or_eq_true_iff.mp h with h1 | h2
        · exact Bool.or_eq_true_iff.mpr (Or.inl (hsub id h1))
        · exact Bool.or_eq_true_iff.mpr (Or.inr h2)
    | tool tid c =>
      have hc' : (idMem tid s₁ && clusterScanOk rest s₁) = true := hc
      show (idMem tid s₂ && pairScanOk rest s₂) = true
      have h12 := Bool.and_eq_true_iff.mp hc'
      exact Bool.and_eq_true_iff.mpr ⟨hsub tid h12.1, ih s₁ s₂ hsub h12.2⟩

/-- Every message the tool harness produces is a `Tool` message, hence not a
`System` message. -/
theorem execute_tool_calls_all_not_system {σ J : Type} (tools : List (Tool J))
    (parse : String → Except String J) (recordAction : σ → Bool × σ) :
    ∀ (calls : List ToolCall) (sec : σ),
      ((execute_tool_calls tools parse recordAction calls sec).1.all
        fun m => !m.isSystem) = true := by
  intro calls
  induction calls with
  | nil => intro sec; rfl
  | cons tc rest ih =>
    intro sec
    show (!(ChatMessage.tool tc.id (toolCallStep tools parse recordAction tc sec).1).isSystem &&
      ((execute_tool_calls tools parse recordAction rest
        (toolCallStep tools parse recordAction tc sec).2).1.all
          fun m => !m.isSystem)) = true
    exact Bool.and_eq_true_iff.mpr ⟨rfl, ih _⟩

/-- The harness's results pass the pairing scan whenever every call id of the
batch is in `seen`. -/
theorem execute_tool_calls_pairScanOk {σ J : Type} (tools : List (Tool J))
    (parse : String → Except String J) (recordAction : σ → Bool × σ) :
    ∀ (calls : List ToolCall) (sec : σ) (seen : List String),
      (∀ tc ∈ calls, idMem tc.id seen = true) →
      pairScanOk (execute_tool_calls tools parse recordAction calls sec).1 seen = true := by
  intro calls
  induction calls with
  | nil => intro sec seen _; rfl
  | cons tc rest ih =>
    intro sec seen hall
    show (idMem tc.id seen &&
      pairScanOk (execute_tool_calls tools parse recordAction rest
        (toolCallStep tools parse recordAction tc sec).2).1 seen) = true
    exact Bool.and_eq_true_iff.mpr ⟨hall tc (List.mem_cons_self _ _),
      ih _ seen fun tc' h => hall tc' (List.mem_cons_of_mem _ h)⟩

/-- The harness's results pass the clustering scan whenever every call id of
the batch is in `seen` (the results contain no `User` message). -/
theorem execute_tool_calls_clusterScanOk {σ J : Type} (tools : List (Tool J))
    (parse : String → Except String J) (recordAction : σ → Bool × σ) :
    ∀ (calls : List ToolCall) (sec : σ) (seen : List String),
      (∀ tc ∈ calls, idMem tc.id seen = true) →
      clusterScanOk (execute_tool_calls tools parse recordAction calls sec).1 seen = true := by
  intro calls
  induction calls with
  | nil => intro sec seen _; rfl
  | cons tc rest ih =>
    intro sec seen hall
    show (idMem tc.id seen &&
      clusterScanOk (execute_tool_calls tools parse recordAction rest
        (toolCallStep tools parse recordAction tc sec).2).1 seen) = true
    exact Bool.and_eq_true_iff.mpr ⟨hall tc (List.mem_cons_self _ _),
      ih _ seen fun tc' h => hall tc' (List.mem_cons_of_mem _ h)⟩

/-- A shape-correct history is a `System` head followed by system-free
messages. -/
theorem history_shape_ok_destruct {history : List ChatMessage}
    (h : history_shape_ok history = true) :
    ∃ s tail, history = ChatMessage.system s :: tail ∧
      (tail.all fun m => !m.isSystem) = true := by
  cases history with
  | nil => simp [history_shape_ok] at h
  | cons m rest =>
    cases m with
    | system c => exact ⟨c, rest, rfl, h⟩
    | user c => simp [history_shape_ok] at h
    | assistant c tcs => simp [history_shape_ok] at h
    | tool tid c => simp [history_shape_ok] at h

/-- Appending system-free messages preserves the shape invariant. -/
theorem history_shape_ok_append {history seg : List ChatMessage}
    (hh : history_shape_ok history = true)
    (hs : (seg.all fun m => !m.isSystem) = true) :
    history_shape_ok (history ++ seg) = true := by
  obtain ⟨s, tail, rfl, htail⟩ := history_shape_ok_destruct hh
  simp only [List.cons_append, history_shape_ok, List.all_append]
  exact Bool.and_eq_true_iff.mpr ⟨htail, hs⟩

/-- Appending a segment that passes both scans under any `seen` set preserves
all three history invariants. -/
theorem invariants_append (history seg : List ChatMessage)
    (hsh : history_shape_ok history = true) (hp : pairScanOk history [] = true)
    (hc : clusterScanOk history [] = true)
    (h1 : (seg.all fun m => !m.isSystem) = true)
    (h2 : ∀ seen, pairScanOk seg seen = true)
    (h3 : ∀ seen, clusterScanOk seg seen = true) :
    history_shape_ok (history ++ seg) = true ∧
      pairScanOk (history ++ seg) [] = true ∧
      clusterScanOk (history ++ seg) [] = true := by
  refine ⟨history_shape_ok_append hsh h1, ?_, ?_⟩
  · rw [pairScanOk_append]
    exact Bool.and_eq_true_iff.mpr ⟨hp, h2 _⟩
  · rw [clusterScanOk_append]
    exact Bool.and_eq_true_iff.mpr ⟨hc, h3 _⟩

/-- The forced-final path preserves all three history invariants. -/
theorem final_phase_preserves {σ : Type} (provider : ProviderFn) (h : List ChatMessage)
    (idx : Nat) (sec : σ)
    (hsh : history_shape_ok h = true) (hp : pairScanOk h [] = true)
    (hc : clusterScanOk h [] = true) :
    history_shape_ok (final_phase provider h idx sec).history = true ∧
    pairScanOk (final_phase provider h idx sec).history [] = true ∧
    clusterScanOk (final_phase provider h idx sec).history [] = true := by
  cases hpr : provider idx (h ++ [ChatMessage.user finalAnswerPrompt]) [] with
  | error e =>
    have hinv := invariants_append h [ChatMessage.user finalAnswerPrompt] hsh hp hc
      rfl (fun _ => rfl) (fun _ => rfl)
    simpa [final_phase, hpr] using hinv
  | ok r =>
    cases r with
    | text t =>
      have hinv := invariants_append h [ChatMessage.user finalAnswerPrompt,
        ChatMessage.assistant (some t) none] hsh hp hc rfl (fun _ => rfl) (fun _ => rfl)
      simpa [final_phase, hpr] using hinv
    | toolUse calls preamble =>
      have hinv := invariants_append h [ChatMessage.user finalAnswerPrompt,
        ChatMessage.assistant (some (preamble.getD finalFallbackText)) none] hsh hp hc
        rfl (fun _ => rfl) (fun _ => rfl)
      simpa [final_phase, hpr] using hinv

/-- The iteration loop preserves all three history invariants. -/
theorem loop_iter_preserves {σ J : Type} (provider : ProviderFn) (tools : List (Tool J))
    (toolDefs : List ToolDefinition) (parse : String → Except String J)
    (recordAction : σ → Bool × σ) :
    ∀ (fuel : Nat) (h : List ChatMessage) (idx : Nat) (sec : σ),
      history_shape_ok h = true → pairScanOk h [] = true → clusterScanOk h [] = true →
      history_shape_ok (loop_iter provider tools toolDefs parse recordAction fuel h
          idx sec).history = true ∧
      pairScanOk (loop_iter provider tools toolDefs parse recordAction fuel h
          idx sec).history [] = true ∧
      clusterScanOk (loop_iter provider tools toolDefs parse recordAction fuel h
          idx sec).history [] = true := by
  intro fuel
  induction fuel with
  | zero =>
    intro h idx sec hsh hp hc
    exact final_phase_preserves provider h idx sec hsh hp hc
  | succ fuel ih =>
    intro h idx sec hsh hp hc
    cases hpr : provider idx h toolDefs with
    | error e =>
      simp only [loop_iter, hpr]
      exact ⟨hsh, hp, hc⟩
    | ok r =>
      cases r with
      | text t =>
        simp only [loop_iter, hpr]
        exact invariants_append h [ChatMessage.assistant (some t) none] hsh hp hc rfl
          (fun _ => rfl) (fun _ => rfl)
      | toolUse calls preamble =>
        simp only [loop_iter, hpr]
        have hids : ∀ (seen : List String) (tc : ToolCall), tc ∈ calls →
            idMem tc.id (seen ++ calls.map fun tc => tc.id) = true := by
          intro seen tc htc
          rw [idMem_append]
          exact Bool.or_eq_true_iff.mpr (Or.inr (idMem_map_id tc calls htc))
        have hseg := invariants_append h (ChatMessage.assistant preamble (some calls) ::
            (execute_tool_calls tools parse recordAction calls sec).1) hsh hp hc
          (by
            simp only [List.all_cons]
            exact Bool.and_eq_true_iff.mpr ⟨rfl,
              execute_tool_calls_all_not_system tools parse recordAction calls sec⟩)
          (fun seen =>
            execute_tool_calls_pairScanOk tools parse recordAction calls sec _
              (fun tc htc => hids seen tc htc))
          (fun seen =>
            execute_tool_calls_clusterScanOk tools parse recordAction calls sec _
              (fun tc htc => hids seen tc htc))
        rw [List.append_cons] at hseg
        exact ih _ _ _ hseg.1 hseg.2.1 hseg.2.2

/-- The cut index computed by the trim scan is at least 1. -/
theorem findCutIndex_ge_one : ∀ (msgs : List ChatMessage) (i userSeen skip : Nat),
    1 ≤ i → 1 ≤ findCutIndex msgs i userSeen skip := by
  intro msgs
  induction msgs with
  | nil => intro i u s _; simp [findCutIndex]
  | cons m rest ih =>
    intro i u s hi
    rw [findCutIndex]
    split
    · split
      · exact hi
      · exact ih _ _ _ (by omega)
    · exact ih _ _ _ (by omega)

/-- If a list has more than `k` `User` messages then the `(k+1)`-th exists. -/
theorem posOfNthUser_exists : ∀ (l : List ChatMessage) (k : Nat),
    k < (l.filter ChatMessage.isUser).length → ∃ p, posOfNthUser l k = some p := by
  intro l
  induction l with
  | nil => intro k hk; simp at hk
  | cons m rest ih =>
    intro k hk
    cases m with
    | user c =>
      cases k with
      | zero => exact ⟨0, rfl⟩
      | succ k =>
        have hk' : k < (rest.filter ChatMessage.isUser).length := by
          simp [List.filter_cons, ChatMessage.isUser] at hk
          omega
        obtain ⟨p, hp⟩ := ih k hk'
        exact ⟨p + 1, by simp [posOfNthUser, hp]⟩
    | system c =>
      have hk' : k < (rest.filter ChatMessage.isUser).length := by
        simpa [List.filter_cons, ChatMessage.isUser] using hk
      obtain ⟨p, hp⟩ := ih k hk'
      exact ⟨p + 1, by simp [posOfNthUser, hp]⟩
    | assistant c tcs =>
      have hk' : k < (rest.filter ChatMessage.isUser).length := by
        simpa [List.filter_cons, ChatMessage.isUser] using hk
      obtain ⟨p, hp⟩ := ih k hk'
      exact ⟨p + 1, by simp [posOfNthUser, hp]⟩
    | tool tid c =>
      have hk' : k < (rest.filter ChatMessage.isUser).length := by
        simpa [List.filter_cons, ChatMessage.isUser] using hk
      obtain ⟨p, hp⟩ := ih k hk'
      exact ⟨p + 1, by simp [posOfNthUser, hp]⟩

/-- The position returned by `posOfNthUser` splits the list at a `User`
message. -/
theorem posOfNthUser_split : ∀ (l : List ChatMessage) (k p : Nat),
    posOfNthUser l k = some p →
    ∃ pre c rest, l = pre ++ ChatMessage.user c :: rest ∧ pre.length = p := by
  intro l
  induction l with
  | nil => intro k p hp; simp [posOfNthUser] at hp
  | cons m rest ih =>
    intro k p hp
    cases m with
    | user c =>
      cases k with
      | zero =>
        have h0 : 0 = p := by simpa [posOfNthUser] using hp
        exact ⟨[], c, rest, rfl, h0⟩
      | succ k =>
        rw [posOfNthUser] at hp
        rcases Option.map_eq_some'.mp hp with ⟨q, hq, hpq⟩
        obtain ⟨pre, c', rest', heq, hlen⟩ := ih k q hq
        exact ⟨ChatMessage.user c :: pre, c', rest', by simp [heq],
          by simp [hlen, hpq]⟩
    | system c =>
      rw [posOfNthUser] at hp
      rcases Option.map_eq_some'.mp hp with ⟨q, hq, hpq⟩
      obtain ⟨pre, c', rest', heq, hlen⟩ := ih k q hq
      exact ⟨ChatMessage.system c :: pre, c', rest', by simp [heq],
        by simp [hlen, hpq]⟩
    | assistant c tcs =>
      rw [posOfNthUser] at hp
      rcases Option.map_eq_some'.mp hp with ⟨q, hq, hpq⟩
      obtain ⟨pre, c', rest', heq, hlen⟩ := ih k q hq
      exact ⟨ChatMessage.assistant c tcs :: pre, c', rest', by simp [heq],
        by simp [hlen, hpq]⟩
    | tool tid c =>
      rw [posOfNthUser] at hp
      rcases Option.map_eq_some'.mp hp with ⟨q, hq, hpq⟩
      obtain ⟨pre, c', rest', heq, hlen⟩ := ih k q hq
      exact ⟨ChatMessage.tool tid c :: pre, c', rest', by simp [heq],
        by simp [hlen, hpq]⟩

/-- Keeping the `System` head and any suffix of the tail preserves the shape
invariant. -/
theorem shape_of_take_drop (s : String) (tail : List ChatMessage) (cut : Nat)
    (hcut : 1 ≤ cut) (htail : (tail.all fun m => !m.isSystem) = true) :
    history_shape_ok ((ChatMessage.system s :: tail).take 1 ++
      (ChatMessage.system s :: tail).drop cut) = true := by
  obtain ⟨d, rfl⟩ : ∃ d, cut = d + 1 := ⟨cut - 1, by omega⟩
  show (tail.drop d).all (fun m => !m.isSystem) = true
  rw [List.all_eq_true] at htail ⊢
  intro x hx
  exact htail x (List.drop_subset _ _ hx)

/-- `trim_history` preserves the shape invariant. -/
theorem trim_history_shape_ok (history : List ChatMessage) (maxTurns : Nat)
    (hsh : history_shape_ok history = true) :
    history_shape_ok (trim_history history maxTurns) = true := by
  by_cases h0 : maxTurns = 0
  · simpa [trim_history, h0] using hsh
  by_cases hle : (history.filter ChatMessage.isUser).length ≤ maxTurns
  · simpa [trim_history, h0, hle] using hsh
  have heq : trim_history history maxTurns =
      history.take 1 ++ history.drop (findCutIndex (history.drop 1) 1 0
        ((history.filter ChatMessage.isUser).length - maxTurns)) := by
    simp only [trim_history]
    rw [if_neg h0, if_neg hle]
  rw [heq]
  obtain ⟨s, tail, rfl, htail⟩ := history_shape_ok_destruct hsh
  exact shape_of_take_drop s tail _ (findCutIndex_ge_one _ 1 0 _ (le_refl 1)) htail

/-- `trim_history` preserves the clustering invariant of a shape-correct
history. -/
theorem trim_history_cluster_ok (history : List ChatMessage) (maxTurns : Nat)
    (hsh : history_shape_ok history = true) (hc : tool_clustering_ok history = true) :
    tool_clustering_ok (trim_history history maxTurns) = true := by
  by_cases h0 : maxTurns = 0
  · simpa [trim_history, h0] using hc
  by_cases hle : (history.filter ChatMessage.isUser).length ≤ maxTurns
  · simpa [trim_history, h0, hle] using hc
  have heq : trim_history history maxTurns =
      history.take 1 ++ history.drop (findCutIndex (history.drop 1) 1 0
        ((history.filter ChatMessage.isUser).length - maxTurns)) := by
    simp only [trim_history]
    rw [if_neg h0, if_neg hle]
  rw [heq]
  obtain ⟨s, tail, rfl, htail⟩ := history_shape_ok_destruct hsh
  have hucount : ((ChatMessage.system s :: tail).filter ChatMessage.isUser).length =
      (tail.filter ChatMessage.isUser).length := by
    simp [List.filter_cons, ChatMessage.isUser]
  have hskip_lt : ((ChatMessage.system s :: tail).filter ChatMessage.isUser).length -
      maxTurns < (tail.filter ChatMessage.isUser).length := by
    rw [hucount] at hle ⊢
    omega
  obtain ⟨p, hp⟩ := posOfNthUser_exists tail _ hskip_lt
  have hcut : findCutIndex ((ChatMessage.system s :: tail).drop 1) 1 0
      (((ChatMessage.system s :: tail).filter ChatMessage.isUser).length - maxTurns) =
      1 + p := by
    have := findCutIndex_eq_pos tail 1 0
      (((ChatMessage.system s :: tail).filter ChatMessage.isUser).length - maxTurns) p
      (Nat.zero_le _) (by simpa using hp)
    simpa using this
  obtain ⟨pre, c, rest, htaileq, hlen⟩ := posOfNthUser_split tail _ p hp
  have hdrop : (ChatMessage.system s :: tail).drop (1 + p) = ChatMessage.user c :: rest := by
    rw [show 1 + p = p + 1 by omega, List.drop_succ_cons, htaileq, ← hlen, List.drop_left]
  rw [hcut, hdrop]
  show clusterScanOk (ChatMessage.system s :: ChatMessage.user c :: rest) [] = true
  show clusterScanOk rest [] = true
  have hc' : clusterScanOk tail [] = true := hc
  rw [htaileq, clusterScanOk_append] at hc'
  exact (Bool.and_eq_true_iff.mp hc').2

/-- C5 counterexample: the claim quantifies over all histories satisfying only
the two stated preconditions, but `trim_history` can break tool-result
pairing on such a history: here the cut removes the `Assistant` that
announced call `"k"` while keeping the `Tool "k"` result, because a `User`
message stands between them. -/
theorem c5_invariants_counterexample :
    history_shape_ok [ChatMessage.system "s", ChatMessage.user "u1",
        ChatMessage.assistant none (some [⟨"k", ⟨"echo", "a"⟩⟩]), ChatMessage.user "u2",
        ChatMessage.tool "k" "r"] = true ∧
    tool_pairing_ok [ChatMessage.system "s", ChatMessage.user "u1",
        ChatMessage.assistant none (some [⟨"k", ⟨"echo", "a"⟩⟩]), ChatMessage.user "u2",
        ChatMessage.tool "k" "r"] = true ∧
    tool_pairing_ok (trim_history [ChatMessage.system "s", ChatMessage.user "u1",
        ChatMessage.assistant none (some [⟨"k", ⟨"echo", "a"⟩⟩]), ChatMessage.user "u2",
        ChatMessage.tool "k" "r"] 1) = false := by
  decide

/-- C5 amended: `run_tool_loop` preserves the shape and pairing invariants
(and also the stronger clustering property, which it establishes turn by
turn); `trim_history` always preserves the shape invariant, and preserves
tool-result pairing provided the history additionally satisfies the
clustering property — every `Tool` result's matching `Assistant` after the
last preceding `User` — which holds for all histories the loop itself
produces. -/
theorem c5_invariants_preserved {σ J : Type} (provider : ProviderFn) (tools : List (Tool J))
    (toolDefs : List ToolDefinition) (parse : String → Except String J)
    (recordAction : σ → Bool × σ) :
    (∀ (maxIterations : Nat) (history : List ChatMessage) (sec : σ),
      history_shape_ok history = true → tool_pairing_ok history = true →
      tool_clustering_ok history = true →
      history_shape_ok (run_tool_loop provider tools toolDefs parse recordAction
          maxIterations history sec).history = true ∧
      tool_pairing_ok (run_tool_loop provider tools toolDefs parse recordAction
          maxIterations history sec).history = true ∧
      tool_clustering_ok (run_tool_loop provider tools toolDefs parse recordAction
          maxIterations history sec).history = true) ∧
    (∀ (history : List ChatMessage) (maxTurns : Nat),
      history_shape_ok history = true →
      history_shape_ok (trim_history history maxTurns) = true) ∧
    (∀ (history : List ChatMessage) (maxTurns : Nat),
      history_shape_ok history = true → tool_clustering_ok history = true →
      tool_pairing_ok (trim_history history maxTurns) = true ∧
      tool_clustering_ok (trim_history history maxTurns) = true) := by
  refine ⟨?_, ?_, ?_⟩
  · intro maxIterations history sec hsh hp hc
    exact loop_iter_preserves provider tools toolDefs parse recordAction maxIterations
      history 0 sec hsh hp hc
  · intro history maxTurns hsh
    exact trim_history_shape_ok history maxTurns hsh
  · intro history maxTurns hsh hc
    have hcl := trim_history_cluster_ok history maxTurns hsh hc
    exact ⟨clusterScanOk_pairScanOk _ [] [] (fun _ h => h) hcl, hcl⟩

/-- C5 witness: a concrete loop run (provider answers text at once) and a
concrete trim of a clustered three-turn history both keep all invariants. -/
theorem c5_invariants_preserved_witness :
    tool_pairing_ok (run_tool_loop (σ := Unit) (J := Unit)
        (fun _ _ _ => .ok (.text "hi")) [] [] (fun _ => .ok ()) (fun s => (true, s)) 10
        [ChatMessage.system "s", ChatMessage.user "hello"] ()).history = true ∧
    tool_pairing_ok (trim_history
        [ChatMessage.system "s", ChatMessage.user "u1",
          ChatMessage.assistant none (some [⟨"k", ⟨"echo", "a"⟩⟩]),
          ChatMessage.tool "k" "r", ChatMessage.user "u2",
          ChatMessage.assistant (some "r2") none] 1) = true := by
  constructor
  · exact ((c5_invariants_preserved (σ := Unit) (J := Unit)
      (fun _ _ _ => .ok (.text "hi")) [] [] (fun _ => .ok ()) (fun s => (true, s))).1 10
      [ChatMessage.system "s", ChatMessage.user "hello"] () (by decide) (by decide)
      (by decide)).2.1
  · exact ((c5_invariants_preserved (σ := Unit) (J := Unit)
      (fun _ _ _ => .ok (.text "hi")) [] [] (fun _ => .ok ()) (fun s => (true, s))).2.2
      [ChatMessage.system "s", ChatMessage.user "u1",
        ChatMessage.assistant none (some [⟨"k", ⟨"echo", "a"⟩⟩]),
        ChatMessage.tool "k" "r", ChatMessage.user "u2",
        ChatMessage.assistant (some "r2") none] 1 (by decide) (by decide)).1

end Jarvis
